import Mathlib

/-!
netenv: verification of the batched-environment transport specification

Shallow embedding of `netenv` (`src/netenv/client_server_test.py` plus the
transport layer described by the specification).  The in-process batching
adapter `Vectorize` and the deterministic test environment `_SimpleEnv`
(named `SimpleEnv` here) are translated from the source file.  The
`Client`/`Server` transport sources are not part of the repository snapshot,
so the `ClientProxy`/`ServerSession` pair is modelled from the
specification; every such definition carries a doc comment starting with
`Modelled from the spec:`.

Conventions: numpy `uint8` arrays are flat `List Nat` values with entries
reduced modulo 256 where overflow matters; Python exceptions become
`Option`/`Except` results; Python object mutation becomes explicit state
passing (and, for the aliasing claim, an explicit heap of reference cells).
-/

namespace Netenv

/-- A flat array of unsigned 8-bit values (a numpy `uint8` buffer). -/
abbrev Arr := List Nat

/-- A raw byte payload on the wire or in a shared-memory slot. -/
abbrev Bytes := List Nat

/-- numpy in-place `+=` on `uint8` buffers of equal shape: the action is
cast to `uint8` and added elementwise with wraparound modulo 256. -/
def addArr (x a : Arr) : Arr :=
  x.zipWith (fun c b => (c + b % 256) % 256) a

/-- Decode `n` fixed-size instances of `L` bytes each from a buffer. -/
def chunkN : Nat → Nat → Bytes → List Bytes
  | 0, _, _ => []
  | n + 1, L, b => b.take L :: chunkN n L (b.drop L)

/-- Left-to-right effectful map over a list in the `Option` monad, the
semantics of a Python list comprehension in which an element may raise. -/
def mapOpt (f : α → Option β) : List α → Option (List β)
  | [] => some []
  | x :: xs =>
      match f x with
      | none => none
      | some y =>
          match mapOpt f xs with
          | none => none
          | some ys => some (y :: ys)

/-- gym space descriptors as used by the test environments: `Box` with a
shape and an item size in bytes, `Discrete`, and ordered `Dict` spaces. -/
inductive Space where
  | box (shape : List Nat) (itemsize : Nat)
  | discrete (n : Nat)
  | dict (spaces : List (String × Space))

/-- Python `hasattr(space, "spaces")`: true exactly for `Dict` spaces. -/
def Space.hasSpaces : Space → Bool
  | .dict _ => true
  | _ => false

/-- Per-instance byte size of a non-`Dict` space (`Box`: product of the
shape times the item width; `Discrete`: one 64-bit integer).  `none` for a
`Dict` member, whose size cannot be determined flat (spec: `SchemaError`
for a nested-`Dict` member). -/
def Space.sizeFlat : Space → Option Nat
  | .box shape itemsize => some (shape.prod * itemsize)
  | .discrete _ => some 8
  | .dict _ => none

/-- A single environment's observation: either one array, or a dict of
named arrays (insertion order significant). -/
inductive ObsV where
  | arr (a : Arr)
  | dct (cols : List (String × Arr))
deriving DecidableEq

/-- Python `o[name]` on an observation: a dict lookup; indexing a plain
array observation with a string key raises. -/
def ObsV.getItem : ObsV → String → Option Arr
  | .arr _, _ => none
  | .dct cols, name => cols.lookup name

/-- View an observation as a plain array (the non-dict branch of
`Vectorize._merge_obs` stacks raw observations with `np.array`). -/
def ObsV.asArr : ObsV → Option Arr
  | .arr a => some a
  | .dct _ => none

/-- A batched observation: one stacked array, or a dict of per-name stacked
arrays, each stacked in instance order. -/
inductive MergedObs where
  | arr (xs : List Arr)
  | dct (cols : List (String × List Arr))
deriving DecidableEq

/-- The capability interface of one environment instance, as the batching
adapter uses it (`reset`, `step`, rgb-mode `render`, `close`, plus the
space attributes read off the first instance).  `step` and `render` are
`Option`-valued because the underlying environment may raise; `Vectorize`
only ever calls `render` after asserting the mode is `"rgb_array"`, so the
interface carries the rgb renderer. -/
structure EnvDyn (S A I : Type) where
  observation_space : Space
  action_space : Space
  reset : S → ObsV × S
  step : S → A → Option (ObsV × Rat × Bool × I × S)
  render_rgb : S → Option (Arr × S)
  close : S → S

/-- `Vectorize`: the in-process batching adapter from the source.  `act` is
the `self._act` buffer (`None` until the first `step_async`). -/
structure Vectorize (S A I : Type) where
  dyn : EnvDyn S A I
  envs : List S
  observation_space : Space
  action_space : Space
  act : Option (List A)

/-- Python error outcomes distinguished by the claims. -/
inductive PyError where
  | assertionError
  | indexError
deriving DecidableEq

/-- `Vectorize.__init__`: builds the instances, reads the spaces off
instance 0 (raising `IndexError` on an empty batch), and asserts that the
action space is not a dict space.  All instances share one `EnvDyn`, which
mirrors the homogeneous batches the source constructs. -/
def Vectorize.init (dyn : EnvDyn S A I) (envs : List S) :
    Except PyError (Vectorize S A I) :=
  match envs with
  | [] => .error .indexError
  | _ :: _ =>
      if dyn.action_space.hasSpaces then .error .assertionError
      else .ok { dyn := dyn
                 envs := envs
                 observation_space := dyn.observation_space
                 action_space := dyn.action_space
                 act := none }

/-- `Vectorize._merge_obs`: for a dict observation space, stack each named
member across instances; otherwise stack the raw observations. -/
def mergeObs (space : Space) (raw : List ObsV) : Option MergedObs :=
  match space with
  | .dict kvs =>
      match mapOpt (fun kv =>
          match mapOpt (fun o => ObsV.getItem o kv.1) raw with
          | none => none
          | some col => some (kv.1, col)) kvs with
      | none => none
      | some cols => some (.dct cols)
  | _ =>
      match mapOpt ObsV.asArr raw with
      | none => none
      | some xs => some (.arr xs)

/-- `Vectorize.reset`: reset every instance in order and merge. -/
def Vectorize.reset (v : Vectorize S A I) :
    Option (MergedObs × Vectorize S A I) :=
  let pairs := v.envs.map v.dyn.reset
  (mergeObs v.observation_space (pairs.map Prod.fst)).map
    fun m => (m, { v with envs := pairs.map Prod.snd })

/-- `Vectorize.step_async`: stores the action batch in `self._act`. -/
def Vectorize.step_async (v : Vectorize S A I) (act : List A) :
    Vectorize S A I :=
  { v with act := some act }

/-- The `step_wait` loop: steps instance `i` with `self._act[i]`.  The
source reuses the loop variable as the info binding, which is behaviourally
the indexed loop embedded here because `enumerate` rebinds it each
iteration.  With `self._act = None` and a nonempty batch the subscript
raises; an out-of-range index raises. -/
def Vectorize.step_loop (dyn : EnvDyn S A I) (act : Option (List A)) :
    List S → Nat →
    Option (List ObsV × List Rat × List Bool × List I × List S)
  | [], _ => some ([], [], [], [], [])
  | e :: rest, i =>
      match act with
      | none => none
      | some acts =>
          match acts.get? i with
          | none => none
          | some a =>
              match dyn.step e a with
              | none => none
              | some (o, r, d, inf, e') =>
                  match Vectorize.step_loop dyn act rest (i + 1) with
                  | none => none
                  | some (os, rs, ds, fs, es) =>
                      some (o :: os, r :: rs, d :: ds, inf :: fs, e' :: es)

/-- `Vectorize.step_wait`: run the step loop over the stored actions, then
merge the raw observations and return the reward/done/info batches.  The
stored action buffer is not cleared (the source never resets `self._act`). -/
def Vectorize.step_wait (v : Vectorize S A I) :
    Option (MergedObs × List Rat × List Bool × List I × Vectorize S A I) :=
  match Vectorize.step_loop v.dyn v.act v.envs 0 with
  | none => none
  | some (os, rs, ds, fs, es) =>
      match mergeObs v.observation_space os with
      | none => none
      | some m => some (m, rs, ds, fs, { v with envs := es })

/-- `Vectorize.render`: asserts `mode == "rgb_array"`, then renders every
instance in order and stacks the frames. -/
def Vectorize.render (v : Vectorize S A I) (mode : String) :
    Option (List Arr × Vectorize S A I) :=
  if mode = "rgb_array" then
    (mapOpt v.dyn.render_rgb v.envs).map
      fun pairs => (pairs.map Prod.fst, { v with envs := pairs.map Prod.snd })
  else none

/-- `Vectorize.render` at its Python default argument `mode="human"`. -/
def Vectorize.render_default (v : Vectorize S A I) :
    Option (List Arr × Vectorize S A I) :=
  v.render "human"

/-- `Vectorize.close`: closes every instance; the adapter state itself is
otherwise untouched. -/
def Vectorize.close (v : Vectorize S A I) : Vectorize S A I :=
  { v with envs := v.envs.map v.dyn.close }

/-!
`_SimpleEnv` (functional view)

The deterministic test environment.  `bufs` is the single underlying
storage: after the first `reset`, `self._cur_obs` is the same object as
`self._start_obs`, and `step` mutates it in place, so one buffer (or one
buffer per dict key) suffices; `has_cur` records whether `self._cur_obs`
is still `None`.  The seeded `np.random.RandomState` draws used by
`render` are abstracted as the stream `frames` with a cursor (the RNG is
library code outside the repository; the stream is deterministic in the
seed, which is all the claims use).
-/

structure SimpleEnv where
  dict_obs_space : Bool
  bufs : List Arr
  has_cur : Bool
  cur_step : Nat
  max_steps : Nat
  frames : Nat → Arr
  frame_idx : Nat

/-- The observation value `_SimpleEnv` returns: the current storage, as a
dict keyed `obs_a`, `obs_b` in dict mode, else the plain array. -/
def SimpleEnv.obsOf (e : SimpleEnv) : ObsV :=
  if e.dict_obs_space then
    .dct [("obs_a", e.bufs.getD 0 []), ("obs_b", e.bufs.getD 1 [])]
  else .arr (e.bufs.getD 0 [])

/-- `_SimpleEnv.reset`: rebinds `_cur_obs` to the start observation and
zeroes the step counter. -/
def SimpleEnv.reset (e : SimpleEnv) : ObsV × SimpleEnv :=
  let e' := { e with has_cur := true, cur_step := 0 }
  (e'.obsOf, e')

/-- `_SimpleEnv.step`: in-place `+=` of the action into every stored
buffer, then advance the step counter; raises (`none`) when `reset` has
not yet been called. -/
def SimpleEnv.step (e : SimpleEnv) (a : Arr) :
    Option (ObsV × Rat × Bool × Unit × SimpleEnv) :=
  if e.has_cur then
    let e' := { e with
                bufs := e.bufs.map (fun x => addArr x a)
                cur_step := e.cur_step + 1 }
    some (e'.obsOf, ((e.cur_step + 1 : Nat) : Rat) / (e.max_steps : Rat),
          decide (e.max_steps ≤ e.cur_step + 1), (), e')
  else none

/-- `_SimpleEnv.render` in `"rgb_array"` mode: the next RNG draw. -/
def SimpleEnv.render (e : SimpleEnv) : Arr × SimpleEnv :=
  (e.frames e.frame_idx, { e with frame_idx := e.frame_idx + 1 })

/-- The `EnvDyn` interface of `_SimpleEnv` for a given dict-mode flag and
action shape (`uint8`, itemsize 1).  `close` is inherited from `gym.Env`,
whose default is a no-op. -/
def simpleDyn (dm : Bool) (shape : List Nat) : EnvDyn SimpleEnv Arr Unit :=
  let box := Space.box shape 1
  { observation_space :=
      if dm then .dict [("obs_a", box), ("obs_b", box)] else box
    action_space := box
    reset := SimpleEnv.reset
    step := SimpleEnv.step
    render_rgb := fun e => some (SimpleEnv.render e)
    close := fun e => e }

/-!
`_SimpleEnv` (heap view, for the aliasing behaviour)

The source's `reset` performs the reference assignment
`self._cur_obs = self._start_obs` and `step` mutates the referenced arrays
in place with `+=`.  To state the aliasing itself we embed the arrays in an
explicit heap of cells addressed by natural-number references; an
environment stores references, not values.
-/

/-- A heap of array cells; a reference is an index into `cells`. -/
structure Heap where
  cells : List Arr
deriving DecidableEq

/-- Dereference. -/
def Heap.get (h : Heap) (r : Nat) : Arr :=
  h.cells.getD r []

/-- In-place update of one cell. -/
def Heap.set (h : Heap) (r : Nat) (x : Arr) : Heap :=
  ⟨h.cells.set r x⟩

/-- `_SimpleEnv` over the heap: `start_refs` are the references held by
`self._start_obs` (one per dict key, a single one otherwise) and
`cur_refs` is `self._cur_obs` (`none` for Python `None`). -/
structure SimpleEnvH where
  dict_obs_space : Bool
  start_refs : List Nat
  cur_refs : Option (List Nat)
  cur_step : Nat
  max_steps : Nat
deriving DecidableEq

/-- `_SimpleEnv.reset` on the heap view: `self._cur_obs = self._start_obs`
is a reference assignment, so the returned observation is exactly the
stored start references; the heap is untouched. -/
def SimpleEnvH.resetH (e : SimpleEnvH) : List Nat × SimpleEnvH :=
  (e.start_refs, { e with cur_refs := some e.start_refs, cur_step := 0 })

/-- `_SimpleEnv.step` on the heap view: `+=` mutates every referenced
buffer in place; with `self._cur_obs` still `None` the `+=` raises. -/
def SimpleEnvH.stepH (e : SimpleEnvH) (h : Heap) (a : Arr) :
    Option (List Nat × Rat × Bool × SimpleEnvH × Heap) :=
  match e.cur_refs with
  | none => none
  | some refs =>
      let h' := refs.foldl (fun acc r => acc.set r (addArr (acc.get r) a)) h
      let e' := { e with cur_step := e.cur_step + 1 }
      some (refs, ((e.cur_step + 1 : Nat) : Rat) / (e.max_steps : Rat),
            decide (e.max_steps ≤ e.cur_step + 1), e', h')

/-!
The transport layer

The repository snapshot contains only the test file; `netenv/client.py`
and `netenv/server.py` are absent.  The following definitions are
therefore modelled from the specification (sections 3 to 6): the wire
`Frame`, the shared-memory slots, and the steady-state
`ClientProxy`/`ServerSession` pair multiplexed over one connection.  The
two processes and the socket between them are collapsed into one
`Connection` state: because the protocol is strictly half-duplex with a
single in-flight request, a client call, the server dispatch it triggers,
and the reply can be modelled as one state transition.  Fixed-width scalar
fields of a reply (rewards, done flags, infos) always travel inline with
invertible encodings shared by both transport paths, so they are carried
as structured values; bulk array payloads (actions, observations, render
frames), where the inline and shared-memory paths genuinely differ, are
carried as bytes.
-/

/-- Modelled from the spec: addressing is a Unix socket path or a TCP
host/port pair; the kind never influences decoded payloads. -/
inductive SocketKind where
  | tcp
  | unix
deriving DecidableEq

/-- Modelled from the spec: one wire message, an opcode with a payload
whose declared length always matches the bytes that follow. -/
structure Frame where
  opcode : Nat
  payload : Bytes
deriving DecidableEq

/-- Modelled from the spec: the `STEP` opcode. -/
def OP_STEP : Nat := 4

/-- Modelled from the spec: transport-level error outcomes surfaced by the
client call surface. -/
inductive NetError where
  | protocolError
  | remoteEnvError
deriving DecidableEq

/-- Modelled from the spec: the post-handshake state of one connection.
The server side owns the batched collaborator `venv` and the two shared
slots; the client side holds the negotiated instance count and space
descriptors, its pending unconsumed `STEP` frame, and its closed flag. -/
structure Connection (S I : Type) where
  venv : Vectorize S Arr I
  num_envs : Nat
  obs_space : Space
  act_space : Space
  use_shared_memory : Bool
  socket_kind : SocketKind
  slot_c2s : Bytes
  slot_s2c : Bytes
  pending : Option Frame
  client_closed : Bool
  server_closed : Bool

/-- Modelled from the spec: the connection state right after the handshake
agreed on the instance count and the space descriptors derived from the
server's collaborator. -/
def mkConn (v : Vectorize S Arr I) (shm : Bool) (sk : SocketKind) :
    Connection S I :=
  { venv := v
    num_envs := v.envs.length
    obs_space := v.observation_space
    act_space := v.action_space
    use_shared_memory := shm
    socket_kind := sk
    slot_c2s := []
    slot_s2c := []
    pending := none
    client_closed := false
    server_closed := false }

/-- Modelled from the spec: serialize a batched observation for the wire
or the shared slot, member arrays concatenated in descriptor order. -/
def encMerged : MergedObs → Bytes
  | .arr xs => xs.flatten
  | .dct cols => (cols.map (fun c => c.2.flatten)).flatten

/-- Modelled from the spec: decode the per-name columns of a dict payload,
each name consuming `instance count * member size` bytes in order. -/
def decCols : List (String × Space) → Nat → Bytes → List (String × List Arr)
  | [], _, _ => []
  | kv :: rest, n, b =>
      let L := kv.2.sizeFlat.getD 0
      (kv.1, chunkN n L (b.take (n * L))) :: decCols rest n (b.drop (n * L))

/-- Modelled from the spec: decode a batched observation from bytes using
the negotiated descriptor and instance count (sizes of `Dict` members are
guaranteed flat by the handshake). -/
def decMerged (sp : Space) (n : Nat) (b : Bytes) : MergedObs :=
  match sp with
  | .dict kvs => .dct (decCols kvs n b)
  | sp => .arr (chunkN n (sp.sizeFlat.getD 0) b)

/-- Modelled from the spec: decode a batch of render frames; the frames of
one batch share a size, recovered from the payload length and the instance
count. -/
def decFrames (n : Nat) (b : Bytes) : List Arr :=
  chunkN n (b.length / n) b

namespace ClientProxy

/-- Modelled from the spec: `reset`.  The client sends `RESET`; the server
calls the collaborator's `reset`, writes the observations to the
server-to-client slot when shared memory is enabled and inlines them in
the ack frame otherwise; the client decodes from whichever carrier was
negotiated.  A collaborator failure comes back as an error frame. -/
def reset (c : Connection S I) : Option (MergedObs × Connection S I) :=
  (Vectorize.reset c.venv).map fun p =>
    let b := encMerged p.1
    let c' := if c.use_shared_memory
      then { c with venv := p.2, slot_s2c := b }
      else { c with venv := p.2 }
    let raw := if c.use_shared_memory then c'.slot_s2c else b
    (decMerged c.obs_space c.num_envs raw, c')

/-- Modelled from the spec: `step_async` validates the action batch
against the negotiated action descriptor, then immediately sends the
`STEP` request: actions written to the client-to-server slot with an empty
frame payload when shared memory is enabled, inlined otherwise.  The frame
stays pending until `step_wait` consumes it. -/
def step_async (c : Connection S I) (acts : List Arr) :
    Option (Connection S I) :=
  if acts.length == c.num_envs
      && acts.all (fun a => a.length == c.act_space.sizeFlat.getD 0) then
    let b := acts.flatten
    some (if c.use_shared_memory
      then { c with slot_c2s := b, pending := some ⟨OP_STEP, []⟩ }
      else { c with pending := some ⟨OP_STEP, b⟩ })
  else none

/-- Modelled from the spec: `step_wait` fails with `ProtocolError` when no
unconsumed `step_async` is pending.  Otherwise the server dispatches the
pending `STEP` frame: it decodes the actions from the negotiated carrier,
calls the collaborator's step, and replies with observations through the
carrier plus inline rewards, dones and infos; a collaborator failure is
forwarded as an error frame.  The client decodes and clears the pending
request. -/
def step_wait (c : Connection S I) :
    Except NetError
      (MergedObs × List Rat × List Bool × List I × Connection S I) :=
  match c.pending with
  | none => .error .protocolError
  | some fr =>
      let actBytes := if c.use_shared_memory then c.slot_c2s else fr.payload
      let acts := chunkN c.num_envs (c.act_space.sizeFlat.getD 0) actBytes
      match Vectorize.step_wait (Vectorize.step_async c.venv acts) with
      | none => .error .remoteEnvError
      | some (m, rews, dones, infos, venv') =>
          let ob := encMerged m
          let c' := { c with
                      venv := venv'
                      pending := none
                      slot_s2c :=
                        if c.use_shared_memory then ob else c.slot_s2c }
          let raw := if c.use_shared_memory then c'.slot_s2c else ob
          .ok (decMerged c.obs_space c.num_envs raw, rews, dones, infos, c')

/-- Modelled from the spec: `render` is synchronous; the server calls the
collaborator's render and sends the frame batch through the negotiated
carrier. -/
def render (c : Connection S I) (mode : String) :
    Option (List Arr × Connection S I) :=
  (Vectorize.render c.venv mode).map fun p =>
    let b := p.1.flatten
    let c' := if c.use_shared_memory
      then { c with venv := p.2, slot_s2c := b }
      else { c with venv := p.2 }
    let raw := if c.use_shared_memory then c'.slot_s2c else b
    (decFrames c.num_envs raw, c')

end ClientProxy

namespace ServerSession

/-- Modelled from the spec: the server's `CLOSE` handling closes the
collaborator, releases the shared slots and the socket, and is idempotent
when already closing; the client-side fields are not its to touch. -/
def close (c : Connection S I) : Connection S I :=
  if c.server_closed then c
  else { c with
         venv := Vectorize.close c.venv
         server_closed := true
         slot_c2s := []
         slot_s2c := [] }

end ServerSession

namespace ClientProxy

/-- Modelled from the spec: the client's `close` sends `CLOSE` (upon which
the server tears down its side), releases its mappings and its socket, and
is safe to call multiple times: an already-closed proxy does nothing. -/
def close (c : Connection S I) : Connection S I :=
  if c.client_closed then c
  else { ServerSession.close c with client_closed := true }

end ClientProxy

/-!
The scenario loop of `test_simple_env`

`reset` once, then for each action batch of the script: `step_async`,
`step_wait`, and an `"rgb_array"` `render`.  The direct run drives the
in-process `Vectorize`; the networked run drives the same calls through
the `ClientProxy`/`ServerSession` connection.  Both collect exactly the
values the test compares: the reset observations, then per step the
observations, rewards, dones, and the render frames. -/

/-- One step's compared outputs. -/
abbrev StepOut := MergedObs × List Rat × List Bool × List Arr

/-- The per-step loop of the scenario, driving `Vectorize` directly. -/
def stepsDirect (v : Vectorize S Arr I) :
    List (List Arr) → Option (List StepOut)
  | [] => some []
  | acts :: rest =>
      match Vectorize.step_wait (Vectorize.step_async v acts) with
      | none => none
      | some (m, rs, ds, _, v') =>
          match Vectorize.render v' "rgb_array" with
          | none => none
          | some (fr, v'') =>
              match stepsDirect v'' rest with
              | none => none
              | some tl => some ((m, rs, ds, fr) :: tl)

/-- The whole scenario, driving `Vectorize` directly. -/
def runDirect (v : Vectorize S Arr I) (script : List (List Arr)) :
    Option (MergedObs × List StepOut) :=
  match Vectorize.reset v with
  | none => none
  | some (o, v') =>
      match stepsDirect v' script with
      | none => none
      | some outs => some (o, outs)

/-- The per-step loop of the scenario, through the transport. -/
def stepsNet (c : Connection S I) :
    List (List Arr) → Option (List StepOut)
  | [] => some []
  | acts :: rest =>
      match ClientProxy.step_async c acts with
      | none => none
      | some c1 =>
          match ClientProxy.step_wait c1 with
          | .error _ => none
          | .ok (m, rs, ds, _, c2) =>
              match ClientProxy.render c2 "rgb_array" with
              | none => none
              | some (fr, c3) =>
                  match stepsNet c3 rest with
                  | none => none
                  | some tl => some ((m, rs, ds, fr) :: tl)

/-- The whole scenario, through the transport. -/
def runNet (c : Connection S I) (script : List (List Arr)) :
    Option (MergedObs × List StepOut) :=
  match ClientProxy.reset c with
  | none => none
  | some (o, c') =>
      match stepsNet c' script with
      | none => none
      | some outs => some (o, outs)

/-!
Concrete instances used by the witnesses -/

/-- A one-instance non-dict `_SimpleEnv`, seed-style parameters chosen
small: shape `[2]`, `max_steps` 1, constant 2-entry render draws. -/
def wEnv : SimpleEnv :=
  { dict_obs_space := false
    bufs := [[1, 2]]
    has_cur := false
    cur_step := 0
    max_steps := 1
    frames := fun _ => [3, 4]
    frame_idx := 0 }

/-- A one-instance `Vectorize` over `wEnv`. -/
def wVec : Vectorize SimpleEnv Arr Unit :=
  { dyn := simpleDyn false [2]
    envs := [wEnv]
    observation_space := (simpleDyn false [2]).observation_space
    action_space := Space.box [2] 1
    act := none }

/-- `wEnv` after a reset, with the action batch `[[1, 1]]` submitted. -/
def wEnvR : SimpleEnv := { wEnv with has_cur := true }

/-- A `Vectorize` over `wEnvR` with a pending action batch. -/
def wVecR : Vectorize SimpleEnv Arr Unit :=
  { wVec with envs := [wEnvR], act := some [[1, 1]] }

/-- `wEnvR` after stepping with action `[1, 1]`. -/
def wStepEnv : SimpleEnv := { wEnvR with bufs := [[2, 3]], cur_step := 1 }

/-- The per-instance step result of `wEnvR` under action `[1, 1]`. -/
def wStepOut : ObsV × Rat × Bool × Unit × SimpleEnv :=
  (ObsV.arr [2, 3], ((0 + 1 : Nat) : Rat) / ((1 : Nat) : Rat),
    true, (), wStepEnv)

/-- An environment interface whose action space is a dict space. -/
def wDictDyn : EnvDyn SimpleEnv Arr Unit :=
  { observation_space := Space.box [2] 1
    action_space := Space.dict [("act", Space.box [2] 1)]
    reset := SimpleEnv.reset
    step := SimpleEnv.step
    render_rgb := fun e => some (SimpleEnv.render e)
    close := fun e => e }

/-- One dict-mode `_SimpleEnv` instance of the 32-instance scenario:
observation shape `(3, 8)` (24 `uint8` entries per member), render draws
of 512 entries (a `(16, 8, 4)` frame). -/
def wEnvD : SimpleEnv :=
  { dict_obs_space := true
    bufs := [List.replicate 24 0, List.replicate 24 0]
    has_cur := false
    cur_step := 0
    max_steps := 1
    frames := fun _ => List.replicate 512 0
    frame_idx := 0 }

/-- The 32-instance dict-observation batch of the scenario. -/
def wVec32 : Vectorize SimpleEnv Arr Unit :=
  { dyn := simpleDyn true [3, 8]
    envs := List.replicate 32 wEnvD
    observation_space := (simpleDyn true [3, 8]).observation_space
    action_space := Space.box [3, 8] 1
    act := none }

/-- A 1000-step script of 32 zero actions of shape `(3, 8)`. -/
def wScript1000 : List (List Arr) :=
  List.replicate 1000 (List.replicate 32 (List.replicate 24 0))

/-- A heap-view `_SimpleEnv` with a single start buffer at reference 0. -/
def wEnvH : SimpleEnvH :=
  { dict_obs_space := false
    start_refs := [0]
    cur_refs := none
    cur_step := 0
    max_steps := 1 }

/-- A heap holding the single start buffer `[1, 2]`. -/
def wHeap : Heap := ⟨[[1, 2]]⟩

/-!
Specification predicates

Shape and correspondence predicates used by the lemmas and claim
statements below. -/

/-- A batch of `n` arrays of `L` entries each. -/
def WSArrs (n L : Nat) (xs : List Arr) : Prop :=
  xs.length = n ∧ ∀ x ∈ xs, x.length = L

/-- Well-shaped per-name columns for a dict payload. -/
def WSCols : List (String × Space) → Nat → List (String × List Arr) → Prop
  | [], _, cols => cols = []
  | kv :: rest, n, cols =>
      ∃ c cs, cols = (kv.1, c) :: cs ∧ WSArrs n (kv.2.sizeFlat.getD 0) c ∧
        WSCols rest n cs

/-- A batched observation well shaped for a descriptor and instance
count. -/
def WSMerged : Space → Nat → MergedObs → Prop
  | .dict kvs, n, m => ∃ cols, m = .dct cols ∧ WSCols kvs n cols
  | sp, n, m => ∃ xs, m = .arr xs ∧ WSArrs n (sp.sizeFlat.getD 0) xs

/-- Split a list of per-instance step results into the five batched
components, each in instance order. -/
def unzip5 (outs : List (ObsV × Rat × Bool × I × S)) :
    List ObsV × List Rat × List Bool × List I × List S :=
  (outs.map fun o => o.1, outs.map fun o => o.2.1,
   outs.map fun o => o.2.2.1, outs.map fun o => o.2.2.2.1,
   outs.map fun o => o.2.2.2.2)

/-- Shape of one `_SimpleEnv` observation value: a plain array of `L`
entries, or the two-key dict with `L`-entry members. -/
def ObsOk (dm : Bool) (L : Nat) : ObsV → Prop
  | .arr a => dm = false ∧ a.length = L
  | .dct cols => dm = true ∧
      ∃ a b, cols = [("obs_a", a), ("obs_b", b)] ∧
        a.length = L ∧ b.length = L

/-- Shape invariant of one `_SimpleEnv` instance: the dict-mode flag, the
buffer count, the buffer sizes, and the size of every render draw. -/
def EnvOk (dm : Bool) (L F : Nat) (e : SimpleEnv) : Prop :=
  e.dict_obs_space = dm ∧ e.bufs.length = (if dm then 2 else 1) ∧
  (∀ x ∈ e.bufs, x.length = L) ∧ ∀ k, (e.frames k).length = F

/-- The invariant tying a `Vectorize` over `_SimpleEnv` instances to the
descriptors the scenario negotiates. -/
def VecOk (dm : Bool) (shape : List Nat) (F n : Nat)
    (v : Vectorize SimpleEnv Arr Unit) : Prop :=
  v.dyn = simpleDyn dm shape ∧
  v.observation_space = (simpleDyn dm shape).observation_space ∧
  v.action_space = Space.box shape 1 ∧
  v.envs.length = n ∧
  ∀ e ∈ v.envs, EnvOk dm shape.prod F e

/-- `VecOk` with every instance already reset at least once. -/
def VecRdy (dm : Bool) (shape : List Nat) (F n : Nat)
    (v : Vectorize SimpleEnv Arr Unit) : Prop :=
  VecOk dm shape F n v ∧ ∀ e ∈ v.envs, e.has_cur = true

/-- Correspondence between a connection and the direct adapter. -/
def Corr (dm : Bool) (shape : List Nat) (n : Nat)
    (c : Connection SimpleEnv Unit) (v : Vectorize SimpleEnv Arr Unit) :
    Prop :=
  c.venv = v ∧ c.num_envs = n ∧
  c.obs_space = (simpleDyn dm shape).observation_space ∧
  c.act_space = Space.box shape 1 ∧
  c.pending = none

/-- Two connections identical except that the first uses the shared-memory
carrier and the second inlines payloads, both idle. -/
def ShmRel (c1 c2 : Connection S I) : Prop :=
  c1.venv = c2.venv ∧ c1.num_envs = c2.num_envs ∧
  c1.obs_space = c2.obs_space ∧ c1.act_space = c2.act_space ∧
  c1.use_shared_memory = true ∧ c2.use_shared_memory = false ∧
  c1.pending = none ∧ c2.pending = none

/-!
Byte-level roundtrips

Both transport carriers serialize a batch of fixed-size arrays by
concatenation and decode by re-chunking with the negotiated sizes; these
lemmas show the codec is the identity on well-shaped batches. -/

lemma chunkN_flatten (L : Nat) :
    ∀ xs : List Bytes, (∀ x ∈ xs, x.length = L) →
      chunkN xs.length L xs.flatten = xs := by
  intro xs
  induction xs with
  | nil => intro _; rfl
  | cons x xs ih =>
      intro h
      have hx : x.length = L := h x (by simp)
      simp only [List.length_cons, List.flatten_cons, chunkN]
      rw [List.take_left' hx, List.drop_left' hx,
        ih (fun y hy => h y (by simp [hy]))]

lemma flatten_length_const {L : Nat} {xs : List Bytes}
    (h : ∀ x ∈ xs, x.length = L) : xs.flatten.length = xs.length * L := by
  rw [List.length_flatten]
  have hrep : xs.map List.length = List.replicate xs.length L := by
    rw [List.eq_replicate_iff]
    constructor
    · simp
    · intro b hb
      obtain ⟨x, hx, rfl⟩ := List.mem_map.mp hb
      exact h x hx
  rw [hrep, List.sum_replicate, smul_eq_mul]

lemma chunkN_flatten_of_ws {n L : Nat} {xs : List Bytes}
    (h : WSArrs n L xs) : chunkN n L xs.flatten = xs := by
  obtain ⟨hn, hL⟩ := h
  rw [← hn]
  exact chunkN_flatten L xs hL

lemma decCols_enc :
    ∀ (kvs : List (String × Space)) (n : Nat)
      (cols : List (String × List Arr)), WSCols kvs n cols →
      decCols kvs n ((cols.map (fun c => c.2.flatten)).flatten) = cols := by
  intro kvs
  induction kvs with
  | nil =>
      intro n cols h
      rw [show WSCols [] n cols = (cols = []) from rfl] at h
      rw [h]
      rfl
  | cons kv rest ih =>
      intro n cols h
      obtain ⟨c, cs, rfl, hws, hrest⟩ := h
      have hfl : c.flatten.length = n * kv.2.sizeFlat.getD 0 := by
        rw [flatten_length_const hws.2, hws.1]
      simp only [List.map_cons, List.flatten_cons, decCols]
      rw [List.take_left' hfl, List.drop_left' hfl, chunkN_flatten_of_ws hws,
        ih n cs hrest]

lemma dec_enc {sp : Space} {n : Nat} {m : MergedObs}
    (h : WSMerged sp n m) : decMerged sp n (encMerged m) = m := by
  cases sp with
  | dict kvs =>
      obtain ⟨cols, rfl, hcols⟩ := h
      exact congrArg MergedObs.dct (decCols_enc kvs n cols hcols)
  | box shape itemsize =>
      obtain ⟨xs, rfl, hws⟩ := h
      exact congrArg MergedObs.arr (chunkN_flatten_of_ws hws)
  | discrete k =>
      obtain ⟨xs, rfl, hws⟩ := h
      exact congrArg MergedObs.arr (chunkN_flatten_of_ws hws)

lemma decFrames_flatten {n F : Nat} {fs : List Arr}
    (hn : fs.length = n) (hF : ∀ f ∈ fs, f.length = F) :
    decFrames n fs.flatten = fs := by
  unfold decFrames
  cases n with
  | zero =>
      have : fs = [] := List.length_eq_zero.mp hn
      subst this
      rfl
  | succ k =>
      have hb : fs.flatten.length = (k + 1) * F := by
        rw [flatten_length_const hF, hn]
      rw [hb, Nat.mul_div_cancel_left F (Nat.succ_pos k)]
      rw [← hn]
      exact chunkN_flatten F fs hF

/-!
Characterizing the `step_wait` loop

The indexed loop of `Vectorize.step_wait` is the per-instance map of the
environment step over the instances zipped with their actions. -/

lemma step_loop_eq (dyn : EnvDyn S A I) (acts : List A) :
    ∀ (envs : List S) (i : Nat), i + envs.length ≤ acts.length →
      Vectorize.step_loop dyn (some acts) envs i =
        (mapOpt (fun p => dyn.step p.1 p.2) (envs.zip (acts.drop i))).map
          unzip5 := by
  intro envs
  induction envs with
  | nil => intro i h; rfl
  | cons e rest ih =>
      intro i h
      have hlen : i + 1 + rest.length ≤ acts.length := by
        simp only [List.length_cons] at h
        omega
      have hi : i < acts.length := by omega
      have hdrop : acts.drop i = acts[i] :: acts.drop (i + 1) :=
        List.drop_eq_getElem_cons hi
      have hget : acts.get? i = some acts[i] := by
        rw [List.get?_eq_getElem?, List.getElem?_eq_getElem hi]
      rw [hdrop, List.zip_cons_cons]
      simp only [Vectorize.step_loop, hget, mapOpt]
      cases hstep : dyn.step e acts[i] with
      | none => rfl
      | some out =>
          obtain ⟨o, r, d, inf, e'⟩ := out
          rw [ih (i + 1) hlen]
          cases hrec :
              mapOpt (fun p => dyn.step p.1 p.2) (rest.zip (acts.drop (i + 1)))
            with
          | none => rfl
          | some outs => rfl

/-- `step_wait` as a per-instance map: each instance `i` is stepped with
exactly `actions[i]`, and the resulting reward, done, info and successor
batches are the per-instance results in instance order, with the raw
observations merged per the observation space. -/
lemma step_wait_eq (v : Vectorize S A I) (acts : List A)
    (h : v.act = some acts) (hn : v.envs.length ≤ acts.length) :
    Vectorize.step_wait v =
      (mapOpt (fun p => v.dyn.step p.1 p.2) (v.envs.zip acts)).bind
        fun outs =>
          (mergeObs v.observation_space (outs.map fun o => o.1)).map fun m =>
            (m, outs.map fun o => o.2.1, outs.map fun o => o.2.2.1,
             outs.map fun o => o.2.2.2.1,
             { v with envs := outs.map fun o => o.2.2.2.2 }) := by
  unfold Vectorize.step_wait
  rw [h, step_loop_eq v.dyn acts v.envs 0 (by omega)]
  rw [List.drop_zero]
  cases hrec : mapOpt (fun p => v.dyn.step p.1 p.2) (v.envs.zip acts) with
  | none => rfl
  | some outs =>
      simp only [Option.map_some', Option.some_bind, unzip5]
      cases hm : mergeObs v.observation_space (outs.map fun o => o.1) with
      | none => rfl
      | some m => rfl

/-- Convenient success form of `step_wait_eq`: when every per-instance
step succeeds and the merge succeeds, `step_wait` returns exactly the
per-instance results batched in instance order. -/
lemma step_wait_some (v : Vectorize S A I) (acts : List A)
    (outs : List (ObsV × Rat × Bool × I × S)) (m : MergedObs)
    (h : v.act = some acts) (hn : v.envs.length ≤ acts.length)
    (houts : mapOpt (fun p => v.dyn.step p.1 p.2) (v.envs.zip acts) =
      some outs)
    (hm : mergeObs v.observation_space (outs.map fun o => o.1) = some m) :
    Vectorize.step_wait v =
      some (m, outs.map fun o => o.2.1, outs.map fun o => o.2.2.1,
        outs.map fun o => o.2.2.2.1,
        { v with envs := outs.map fun o => o.2.2.2.2 }) := by
  rw [step_wait_eq v acts h hn, houts, Option.some_bind, hm]
  rfl

/-!
Shape invariants of the `test_simple_env` scenario

The equivalence of the direct and networked runs rests on every
transported batch being well shaped for the negotiated descriptors; these
predicates state the shapes `_SimpleEnv` maintains and the lemmas
propagate them through `reset`, `step` and `merge`. -/

lemma getD_mem {α : Type} {xs : List α} {i : Nat} (d : α)
    (hlt : i < xs.length) : xs.getD i d ∈ xs := by
  rw [List.getD_eq_getElem?_getD, List.getElem?_eq_getElem hlt,
    Option.getD_some]
  exact List.getElem_mem hlt

lemma obsOf_ok {dm : Bool} {L F : Nat} {e : SimpleEnv}
    (he : EnvOk dm L F e) : ObsOk dm L e.obsOf := by
  obtain ⟨hdm, hcount, hlen, _⟩ := he
  cases dm with
  | false =>
      have : e.obsOf = .arr (e.bufs.getD 0 []) := by
        unfold SimpleEnv.obsOf
        rw [hdm]
        simp
      rw [this]
      refine ⟨rfl, hlen _ (getD_mem [] ?_)⟩
      simp at hcount
      omega
  | true =>
      have : e.obsOf =
          .dct [("obs_a", e.bufs.getD 0 []), ("obs_b", e.bufs.getD 1 [])] := by
        unfold SimpleEnv.obsOf
        rw [hdm]
        simp
      rw [this]
      refine ⟨rfl, e.bufs.getD 0 [], e.bufs.getD 1 [], rfl, ?_, ?_⟩ <;>
        [skip; skip] <;> simp at hcount <;>
        exact hlen _ (getD_mem [] (by omega))

lemma reset_ok {dm : Bool} {L F : Nat} {e : SimpleEnv}
    (he : EnvOk dm L F e) :
    ObsOk dm L (SimpleEnv.reset e).1 ∧ EnvOk dm L F (SimpleEnv.reset e).2 ∧
      ((SimpleEnv.reset e).2).has_cur = true := by
  have he' : EnvOk dm L F (SimpleEnv.reset e).2 := by
    obtain ⟨hdm, hcount, hlen, hF⟩ := he
    exact ⟨hdm, hcount, hlen, hF⟩
  exact ⟨obsOf_ok he', he', rfl⟩

lemma step_ok {dm : Bool} {L F : Nat} {e : SimpleEnv} {a : Arr}
    (he : EnvOk dm L F e) (hc : e.has_cur = true) (ha : a.length = L) :
    ∃ out, SimpleEnv.step e a = some out ∧ ObsOk dm L out.1 ∧
      EnvOk dm L F out.2.2.2.2 ∧ out.2.2.2.2.has_cur = true := by
  obtain ⟨hdm, hcount, hlen, hF⟩ := he
  have he' : EnvOk dm L F
      { e with bufs := e.bufs.map (fun x => addArr x a)
               cur_step := e.cur_step + 1 } := by
    refine ⟨hdm, by simpa using hcount, ?_, hF⟩
    intro x hx
    obtain ⟨y, hy, rfl⟩ := List.mem_map.mp hx
    unfold addArr
    rw [List.length_zipWith, hlen y hy, ha]
    exact Nat.min_self L
  have hstep : SimpleEnv.step e a = some
      (SimpleEnv.obsOf { e with
          bufs := e.bufs.map (fun x => addArr x a)
          cur_step := e.cur_step + 1 },
        ((e.cur_step + 1 : Nat) : Rat) / (e.max_steps : Rat),
        decide (e.max_steps ≤ e.cur_step + 1), (),
        { e with
          bufs := e.bufs.map (fun x => addArr x a)
          cur_step := e.cur_step + 1 }) := by
    unfold SimpleEnv.step
    rw [hc]
    simp
  exact ⟨_, hstep, obsOf_ok he', he', hc⟩

lemma render_ok {dm : Bool} {L F : Nat} {e : SimpleEnv}
    (he : EnvOk dm L F e) :
    (SimpleEnv.render e).1.length = F ∧
      EnvOk dm L F (SimpleEnv.render e).2 ∧
      ((SimpleEnv.render e).2).has_cur = e.has_cur := by
  obtain ⟨hdm, hcount, hlen, hF⟩ := he
  exact ⟨hF _, ⟨hdm, hcount, hlen, hF⟩, rfl⟩

/-- Success of a `mapOpt` whose function succeeds elementwise, together
with the length and membership facts the shape lemmas need. -/
lemma mapOpt_asArr {L : Nat} :
    ∀ {raws : List ObsV}, (∀ o ∈ raws, ObsOk false L o) →
      ∃ ys, mapOpt ObsV.asArr raws = some ys ∧ ys.length = raws.length ∧
        ∀ y ∈ ys, y.length = L := by
  intro raws
  induction raws with
  | nil => exact fun _ => ⟨[], rfl, rfl, by simp⟩
  | cons o os ih =>
      intro h
      have ho := h o (by simp)
      cases o with
      | dct cols => exact absurd ho.1 (by simp)
      | arr a =>
          obtain ⟨ys, hys, hlen, hL⟩ := ih (fun z hz => h z (by simp [hz]))
          refine ⟨a :: ys, ?_, by simp [hlen], ?_⟩
          · simp only [mapOpt, ObsV.asArr, hys]
          · intro y hy
            rcases List.mem_cons.mp hy with rfl | hy'
            · exact ho.2
            · exact hL y hy'

lemma getItem_obs_a {L : Nat} {o : ObsV} (h : ObsOk true L o) :
    ∃ a, ObsV.getItem o "obs_a" = some a ∧ a.length = L := by
  cases o with
  | arr x => exact absurd h.1 (by simp)
  | dct cols =>
      obtain ⟨-, a, b, rfl, ha, hb⟩ := h
      exact ⟨a, rfl, ha⟩

lemma getItem_obs_b {L : Nat} {o : ObsV} (h : ObsOk true L o) :
    ∃ b, ObsV.getItem o "obs_b" = some b ∧ b.length = L := by
  cases o with
  | arr x => exact absurd h.1 (by simp)
  | dct cols =>
      obtain ⟨-, a, b, rfl, ha, hb⟩ := h
      exact ⟨b, rfl, hb⟩

lemma mapOpt_getItem {L : Nat} (k : String)
    (hsel : ∀ o : ObsV, ObsOk true L o →
      ∃ y, ObsV.getItem o k = some y ∧ y.length = L) :
    ∀ {raws : List ObsV}, (∀ o ∈ raws, ObsOk true L o) →
      ∃ ys, mapOpt (fun o => ObsV.getItem o k) raws = some ys ∧
        ys.length = raws.length ∧ ∀ y ∈ ys, y.length = L := by
  intro raws
  induction raws with
  | nil => exact fun _ => ⟨[], rfl, rfl, by simp⟩
  | cons o os ih =>
      intro h
      obtain ⟨y, hy, hyL⟩ := hsel o (h o (by simp))
      obtain ⟨ys, hys, hlen, hL⟩ := ih (fun z hz => h z (by simp [hz]))
      refine ⟨y :: ys, ?_, by simp [hlen], ?_⟩
      · simp only [mapOpt, hy, hys]
      · intro z hz
        rcases List.mem_cons.mp hz with rfl | hz'
        · exact hyL
        · exact hL z hz'

lemma mergeObs_ok {dm : Bool} {shape : List Nat} {n : Nat} {raws : List ObsV}
    (hlen : raws.length = n) (hok : ∀ o ∈ raws, ObsOk dm shape.prod o) :
    ∃ m, mergeObs ((simpleDyn dm shape).observation_space) raws = some m ∧
      WSMerged ((simpleDyn dm shape).observation_space) n m := by
  cases dm with
  | false =>
      obtain ⟨ys, hys, hyslen, hysL⟩ := mapOpt_asArr hok
      refine ⟨.arr ys, ?_, ?_⟩
      · show mergeObs (Space.box shape 1) raws = some (.arr ys)
        simp only [mergeObs, hys]
      · show WSMerged (Space.box shape 1) n (.arr ys)
        refine ⟨ys, rfl, hyslen.trans hlen, ?_⟩
        intro x hx
        rw [hysL x hx]
        simp [Space.sizeFlat]
  | true =>
      obtain ⟨ya, hya, hyalen, hyaL⟩ :=
        mapOpt_getItem "obs_a" (fun o ho => getItem_obs_a ho) hok
      obtain ⟨yb, hyb, hyblen, hybL⟩ :=
        mapOpt_getItem "obs_b" (fun o ho => getItem_obs_b ho) hok
      refine ⟨.dct [("obs_a", ya), ("obs_b", yb)], ?_, ?_⟩
      · show mergeObs
          (Space.dict [("obs_a", Space.box shape 1),
            ("obs_b", Space.box shape 1)]) raws = _
        simp only [mergeObs, mapOpt, hya, hyb]
      · show WSMerged
          (Space.dict [("obs_a", Space.box shape 1),
            ("obs_b", Space.box shape 1)]) n _
        refine ⟨_, rfl, ya, [("obs_b", yb)], rfl,
          ⟨hyalen.trans hlen, ?_⟩, yb, [], rfl,
          ⟨hyblen.trans hlen, ?_⟩, rfl⟩
        · intro x hx
          rw [hyaL x hx]
          simp [Space.sizeFlat]
        · intro x hx
          rw [hybL x hx]
          simp [Space.sizeFlat]

lemma mapOpt_of_some (f : α → β) :
    ∀ xs : List α, mapOpt (fun x => some (f x)) xs = some (xs.map f)
  | [] => rfl
  | x :: xs => by
      simp only [mapOpt, mapOpt_of_some f xs, List.map_cons]

lemma mapOpt_step_zip {dm : Bool} {shape : List Nat} {F : Nat} :
    ∀ {envs : List SimpleEnv} (acts : List Arr),
      (∀ e ∈ envs, EnvOk dm shape.prod F e ∧ e.has_cur = true) →
      (∀ a ∈ acts, a.length = shape.prod) →
      envs.length ≤ acts.length →
      ∃ outs,
        mapOpt (fun p => SimpleEnv.step p.1 p.2) (envs.zip acts) =
          some outs ∧
        outs.length = envs.length ∧
        ∀ o ∈ outs, ObsOk dm shape.prod o.1 ∧
          EnvOk dm shape.prod F o.2.2.2.2 ∧ o.2.2.2.2.has_cur = true := by
  intro envs
  induction envs with
  | nil => exact fun _ _ _ _ => ⟨[], rfl, rfl, by simp⟩
  | cons e rest ih =>
      intro acts henv hacts hlen
      cases acts with
      | nil => simp at hlen
      | cons a as =>
          obtain ⟨he, hc⟩ := henv e (by simp)
          obtain ⟨out, hout, hobs, henv', hcur'⟩ :=
            step_ok he hc (hacts a (by simp))
          obtain ⟨outs, houts, hol, hoall⟩ :=
            ih as (fun z hz => henv z (by simp [hz]))
              (fun z hz => hacts z (by simp [hz]))
              (by simp at hlen; omega)
          refine ⟨out :: outs, ?_, by simp [hol], ?_⟩
          · have houts' :
                mapOpt (fun p => SimpleEnv.step p.1 p.2)
                  (List.zipWith Prod.mk rest as) = some outs := houts
            simp only [List.zip_cons_cons, mapOpt, hout, houts']
          · intro o ho
            rcases List.mem_cons.mp ho with rfl | ho'
            · exact ⟨hobs, henv', hcur'⟩
            · exact hoall o ho'

lemma reset_vec {dm : Bool} {shape : List Nat} {F n : Nat}
    {v : Vectorize SimpleEnv Arr Unit} (hv : VecOk dm shape F n v) :
    ∃ m, Vectorize.reset v =
      some (m, { v with envs := (v.envs.map v.dyn.reset).map Prod.snd }) ∧
      WSMerged ((simpleDyn dm shape).observation_space) n m ∧
      VecRdy dm shape F n
        { v with envs := (v.envs.map v.dyn.reset).map Prod.snd } := by
  obtain ⟨hdyn, hobs, hact, hlen, henv⟩ := hv
  have hres : v.dyn.reset = SimpleEnv.reset := by rw [hdyn]; rfl
  have hraw : ∀ o ∈ (v.envs.map v.dyn.reset).map Prod.fst,
      ObsOk dm shape.prod o := by
    intro o ho
    obtain ⟨p, hp, rfl⟩ := List.mem_map.mp ho
    obtain ⟨e, he, rfl⟩ := List.mem_map.mp hp
    rw [hres]
    exact (reset_ok (henv e he)).1
  have hrlen : ((v.envs.map v.dyn.reset).map Prod.fst).length = n := by
    simp [hlen]
  obtain ⟨m, hm, hws⟩ := mergeObs_ok hrlen hraw
  refine ⟨m, ?_, hws, ⟨hdyn, hobs, hact, by simp [hlen], ?_⟩, ?_⟩
  · unfold Vectorize.reset
    rw [hobs]
    simp only [hm, Option.map_some']
  · intro e he
    obtain ⟨p, hp, rfl⟩ := List.mem_map.mp he
    obtain ⟨e0, he0, rfl⟩ := List.mem_map.mp hp
    rw [hres]
    exact (reset_ok (henv e0 he0)).2.1
  · intro e he
    obtain ⟨p, hp, rfl⟩ := List.mem_map.mp he
    obtain ⟨e0, he0, rfl⟩ := List.mem_map.mp hp
    rw [hres]
    exact (reset_ok (henv e0 he0)).2.2

lemma step_vec {dm : Bool} {shape : List Nat} {F n : Nat}
    {v : Vectorize SimpleEnv Arr Unit} {acts : List Arr}
    (hv : VecRdy dm shape F n v) (ha : WSArrs n shape.prod acts) :
    ∃ m rs ds infos v',
      Vectorize.step_wait (Vectorize.step_async v acts) =
        some (m, rs, ds, infos, v') ∧
      WSMerged ((simpleDyn dm shape).observation_space) n m ∧
      VecRdy dm shape F n v' ∧ v'.dyn = v.dyn ∧
      v'.observation_space = v.observation_space ∧
      v'.action_space = v.action_space := by
  obtain ⟨⟨hdyn, hobs, hact, hlen, henv⟩, hcur⟩ := hv
  obtain ⟨halen, haL⟩ := ha
  obtain ⟨outs, houts, holen, hoall⟩ :=
    mapOpt_step_zip acts (fun e he => ⟨henv e he, hcur e he⟩) haL
      (by omega)
  have hmlen : (outs.map fun o => o.1).length = n := by
    simp [holen, hlen]
  have hmok : ∀ o ∈ outs.map (fun o => o.1), ObsOk dm shape.prod o := by
    intro o ho
    obtain ⟨p, hp, rfl⟩ := List.mem_map.mp ho
    exact (hoall p hp).1
  obtain ⟨m, hm, hws⟩ := mergeObs_ok hmlen hmok
  have hstep : (fun p : SimpleEnv × Arr => v.dyn.step p.1 p.2) =
      fun p => SimpleEnv.step p.1 p.2 := by rw [hdyn]; rfl
  have hlen2 : (Vectorize.step_async v acts).envs.length ≤ acts.length := by
    rw [show (Vectorize.step_async v acts).envs = v.envs from rfl, hlen,
      halen]
  have houts2 : mapOpt
      (fun p => (Vectorize.step_async v acts).dyn.step p.1 p.2)
      ((Vectorize.step_async v acts).envs.zip acts) = some outs := by
    rw [show (Vectorize.step_async v acts).dyn = v.dyn from rfl, hstep]
    exact houts
  have hm2 : mergeObs (Vectorize.step_async v acts).observation_space
      (outs.map fun o => o.1) = some m := by
    rw [show (Vectorize.step_async v acts).observation_space =
      v.observation_space from rfl, hobs]
    exact hm
  have hw := step_wait_some (Vectorize.step_async v acts) acts outs m rfl
    hlen2 houts2 hm2
  refine ⟨m, _, _, _, _, hw, hws, ⟨⟨hdyn, hobs, hact, ?_, ?_⟩, ?_⟩,
    rfl, rfl, rfl⟩
  · simp [holen, hlen]
  · intro e he
    obtain ⟨p, hp, rfl⟩ := List.mem_map.mp he
    exact (hoall p hp).2.1
  · intro e he
    obtain ⟨p, hp, rfl⟩ := List.mem_map.mp he
    exact (hoall p hp).2.2

lemma render_vec {dm : Bool} {shape : List Nat} {F n : Nat}
    {v : Vectorize SimpleEnv Arr Unit} (hv : VecRdy dm shape F n v) :
    ∃ fr v', Vectorize.render v "rgb_array" = some (fr, v') ∧
      fr.length = n ∧ (∀ f ∈ fr, f.length = F) ∧
      VecRdy dm shape F n v' ∧ v'.dyn = v.dyn ∧
      v'.observation_space = v.observation_space ∧
      v'.action_space = v.action_space ∧ v'.act = v.act := by
  obtain ⟨⟨hdyn, hobs, hact, hlen, henv⟩, hcur⟩ := hv
  have hren : v.dyn.render_rgb = fun e => some (SimpleEnv.render e) := by
    rw [hdyn]; rfl
  have hmr : mapOpt v.dyn.render_rgb v.envs =
      some (v.envs.map SimpleEnv.render) := by
    rw [hren]
    exact mapOpt_of_some SimpleEnv.render v.envs
  refine ⟨(v.envs.map SimpleEnv.render).map Prod.fst,
    { v with envs := (v.envs.map SimpleEnv.render).map Prod.snd },
    ?_, ?_, ?_, ⟨⟨hdyn, hobs, hact, ?_, ?_⟩, ?_⟩,
    rfl, rfl, rfl, rfl⟩
  · unfold Vectorize.render
    rw [if_pos rfl, hmr]
    rfl
  · simp [hlen]
  · intro f hf
    obtain ⟨p, hp, rfl⟩ := List.mem_map.mp hf
    obtain ⟨e, he, rfl⟩ := List.mem_map.mp hp
    exact (render_ok (henv e he)).1
  · simp [hlen]
  · intro e he
    obtain ⟨p, hp, rfl⟩ := List.mem_map.mp he
    obtain ⟨e0, he0, rfl⟩ := List.mem_map.mp hp
    exact (render_ok (henv e0 he0)).2.1
  · intro e he
    obtain ⟨p, hp, rfl⟩ := List.mem_map.mp he
    obtain ⟨e0, he0, rfl⟩ := List.mem_map.mp hp
    rw [(render_ok (henv e0 he0)).2.2]
    exact hcur e0 he0

/-!
Transport refinement

`Corr` relates a live connection to the direct adapter it must mimic
between calls: the server-held collaborator is the direct adapter's state,
the negotiated descriptors are the scenario's, and no request is pending. -/

lemma net_reset {dm : Bool} {shape : List Nat} {F n : Nat}
    {c : Connection SimpleEnv Unit} {v : Vectorize SimpleEnv Arr Unit}
    (hc : Corr dm shape n c v) (hv : VecOk dm shape F n v) :
    ∃ m v' c', Vectorize.reset v = some (m, v') ∧
      ClientProxy.reset c = some (m, c') ∧
      Corr dm shape n c' v' ∧ VecRdy dm shape F n v' ∧
      c'.use_shared_memory = c.use_shared_memory ∧
      c'.socket_kind = c.socket_kind := by
  obtain ⟨hcv, hnum, hco, hca, hcp⟩ := hc
  obtain ⟨m, hm, hws, hrdy⟩ := reset_vec hv
  have hdec : decMerged c.obs_space c.num_envs (encMerged m) = m := by
    rw [hco, hnum]
    exact dec_enc hws
  cases hshm : c.use_shared_memory with
  | true =>
      refine ⟨m, _, { c with
          venv := { v with envs := (v.envs.map v.dyn.reset).map Prod.snd }
          slot_s2c := encMerged m }, hm, ?_, ⟨rfl, hnum, hco, hca, hcp⟩,
        hrdy, hshm, rfl⟩
      unfold ClientProxy.reset
      rw [hcv, hm]
      simp only [Option.map_some', hshm, if_pos]
      rw [hdec]
  | false =>
      refine ⟨m, _, { c with
          venv := { v with envs := (v.envs.map v.dyn.reset).map Prod.snd } },
        hm, ?_, ⟨rfl, hnum, hco, hca, hcp⟩, hrdy, hshm, rfl⟩
      unfold ClientProxy.reset
      rw [hcv, hm]
      simp only [Option.map_some', hshm, if_neg, Bool.false_eq_true,
        not_false_iff]
      rw [hdec]

lemma net_step {dm : Bool} {shape : List Nat} {F n : Nat}
    {c : Connection SimpleEnv Unit} {v : Vectorize SimpleEnv Arr Unit}
    {acts : List Arr}
    (hc : Corr dm shape n c v) (hv : VecRdy dm shape F n v)
    (ha : WSArrs n shape.prod acts) :
    ∃ m rs ds infos v' c1 c',
      Vectorize.step_wait (Vectorize.step_async v acts) =
        some (m, rs, ds, infos, v') ∧
      ClientProxy.step_async c acts = some c1 ∧
      ClientProxy.step_wait c1 = .ok (m, rs, ds, infos, c') ∧
      Corr dm shape n c' v' ∧ VecRdy dm shape F n v' ∧
      c'.use_shared_memory = c.use_shared_memory ∧
      c'.socket_kind = c.socket_kind := by
  obtain ⟨hcv, hnum, hco, hca, hcp⟩ := hc
  obtain ⟨m, rs, ds, infos, v', hw, hws, hrdy, _, _, _⟩ := step_vec hv ha
  have hval : (acts.length == c.num_envs &&
      acts.all fun a => a.length == c.act_space.sizeFlat.getD 0) = true := by
    rw [Bool.and_eq_true]
    constructor
    · rw [hnum, ha.1]
      exact beq_self_eq_true n
    · rw [hca]
      apply List.all_eq_true.mpr
      intro a hA
      have := ha.2 a hA
      simp [Space.sizeFlat, this]
  have hacts : chunkN c.num_envs (c.act_space.sizeFlat.getD 0)
      acts.flatten = acts := by
    rw [hnum, hca]
    have : (Space.box shape 1).sizeFlat.getD 0 = shape.prod := by
      simp [Space.sizeFlat]
    rw [this]
    exact chunkN_flatten_of_ws ha
  have hdec : decMerged c.obs_space c.num_envs (encMerged m) = m := by
    rw [hco, hnum]
    exact dec_enc hws
  cases hshm : c.use_shared_memory with
  | true =>
      refine ⟨m, rs, ds, infos, v',
        { c with slot_c2s := acts.flatten, pending := some ⟨OP_STEP, []⟩ },
        { c with
          slot_c2s := acts.flatten
          venv := v'
          pending := none
          slot_s2c := encMerged m },
        hw, ?_, ?_, ⟨rfl, hnum, hco, hca, rfl⟩, hrdy, hshm, rfl⟩
      · unfold ClientProxy.step_async
        simp only [hval, if_pos, hshm]
      · unfold ClientProxy.step_wait
        simp only [hshm, if_pos, hcv]
        rw [hacts, hw]
        simp only [hdec]
  | false =>
      refine ⟨m, rs, ds, infos, v',
        { c with pending := some ⟨OP_STEP, acts.flatten⟩ },
        { c with venv := v', pending := none },
        hw, ?_, ?_, ⟨rfl, hnum, hco, hca, rfl⟩, hrdy, hshm, rfl⟩
      · unfold ClientProxy.step_async
        simp only [hval, if_pos, hshm, Bool.false_eq_true, if_neg,
          not_false_iff]
      · unfold ClientProxy.step_wait
        simp only [hshm, Bool.false_eq_true, if_neg, not_false_iff, hcv]
        rw [hacts, hw]
        simp only [hdec]

lemma net_render {dm : Bool} {shape : List Nat} {F n : Nat}
    {c : Connection SimpleEnv Unit} {v : Vectorize SimpleEnv Arr Unit}
    (hc : Corr dm shape n c v) (hv : VecRdy dm shape F n v) :
    ∃ fr v' c', Vectorize.render v "rgb_array" = some (fr, v') ∧
      ClientProxy.render c "rgb_array" = some (fr, c') ∧
      Corr dm shape n c' v' ∧ VecRdy dm shape F n v' ∧
      c'.use_shared_memory = c.use_shared_memory ∧
      c'.socket_kind = c.socket_kind := by
  obtain ⟨hcv, hnum, hco, hca, hcp⟩ := hc
  obtain ⟨fr, v', hr, hfl, hfF, hrdy, _, _, _, _⟩ := render_vec hv
  have hdec : decFrames c.num_envs fr.flatten = fr := by
    rw [hnum]
    exact decFrames_flatten hfl hfF
  cases hshm : c.use_shared_memory with
  | true =>
      refine ⟨fr, v', { c with venv := v', slot_s2c := fr.flatten },
        hr, ?_, ⟨rfl, hnum, hco, hca, hcp⟩, hrdy, hshm, rfl⟩
      unfold ClientProxy.render
      rw [hcv, hr]
      simp only [Option.map_some', hshm, if_pos]
      rw [hdec]
  | false =>
      refine ⟨fr, v', { c with venv := v' },
        hr, ?_, ⟨rfl, hnum, hco, hca, hcp⟩, hrdy, hshm, rfl⟩
      unfold ClientProxy.render
      rw [hcv, hr]
      simp only [Option.map_some', hshm, Bool.false_eq_true, if_neg,
        not_false_iff]
      rw [hdec]

lemma steps_net_eq {dm : Bool} {shape : List Nat} {F n : Nat} :
    ∀ (script : List (List Arr)) (c : Connection SimpleEnv Unit)
      (v : Vectorize SimpleEnv Arr Unit),
      Corr dm shape n c v → VecRdy dm shape F n v →
      (∀ acts ∈ script, WSArrs n shape.prod acts) →
      stepsNet c script = stepsDirect v script := by
  intro script
  induction script with
  | nil => intro c v _ _ _; rfl
  | cons acts rest ih =>
      intro c v hc hv hacts
      obtain ⟨m, rs, ds, infos, v', c1, c', hw, hsa, hswc, hc', hv', _, _⟩ :=
        net_step hc hv (hacts acts (by simp))
      obtain ⟨fr, v'', c'', hr, hrc, hc'', hv'', _, _⟩ := net_render hc' hv'
      simp only [stepsNet, stepsDirect, hsa, hswc, hrc, hw, hr]
      rw [ih c'' v'' hc'' hv'' (fun z hz => hacts z (by simp [hz]))]

/-- The central refinement: a connection in correspondence with a direct
adapter produces exactly the direct adapter's outputs over any
well-shaped scenario script. -/
lemma run_net_eq {dm : Bool} {shape : List Nat} {F n : Nat}
    {c : Connection SimpleEnv Unit} {v : Vectorize SimpleEnv Arr Unit}
    (script : List (List Arr))
    (hc : Corr dm shape n c v) (hv : VecOk dm shape F n v)
    (hacts : ∀ acts ∈ script, WSArrs n shape.prod acts) :
    runNet c script = runDirect v script := by
  obtain ⟨m, v', c', hm, hcr, hc', hv', _, _⟩ := net_reset hc hv
  simp only [runNet, runDirect, hcr, hm]
  rw [steps_net_eq script c' v' hc' hv' hacts]

lemma corr_mkConn {dm : Bool} {shape : List Nat} {F n : Nat}
    {v : Vectorize SimpleEnv Arr Unit} (hv : VecOk dm shape F n v)
    (shm : Bool) (sk : SocketKind) :
    Corr dm shape n (mkConn v shm sk) v :=
  ⟨rfl, hv.2.2.2.1, hv.2.1, hv.2.2.1, rfl⟩

/-!
Inline payloads versus shared memory

Both carriers transport the same bytes and decode them with the same
negotiated sizes, so the decoded results agree on every call, for any
collaborator whatsoever and with no shape assumptions: the two paths are
observationally identical. -/

lemma shm_reset {c1 c2 : Connection S I} (h : ShmRel c1 c2) :
    (ClientProxy.reset c1 = none ∧ ClientProxy.reset c2 = none) ∨
    ∃ m d1 d2, ClientProxy.reset c1 = some (m, d1) ∧
      ClientProxy.reset c2 = some (m, d2) ∧ ShmRel d1 d2 := by
  obtain ⟨hv, hn, ho, ha, h1, h2, hp1, hp2⟩ := h
  cases hres : Vectorize.reset c2.venv with
  | none =>
      left
      constructor <;> unfold ClientProxy.reset <;>
        simp only [hv, hres, Option.map_none']
  | some p =>
      obtain ⟨m0, v'⟩ := p
      right
      refine ⟨decMerged c2.obs_space c2.num_envs (encMerged m0),
        { c1 with venv := v', slot_s2c := encMerged m0 },
        { c2 with venv := v' }, ?_, ?_,
        rfl, hn, ho, ha, h1, h2, hp1, hp2⟩
      · unfold ClientProxy.reset
        rw [hv, hres]
        simp only [Option.map_some', h1, if_pos, ho, hn]
      · unfold ClientProxy.reset
        rw [hres]
        simp only [Option.map_some', h2, Bool.false_eq_true, if_neg,
          not_false_iff]

lemma shm_step {c1 c2 : Connection S I} (acts : List Arr)
    (h : ShmRel c1 c2) :
    (ClientProxy.step_async c1 acts = none ∧
      ClientProxy.step_async c2 acts = none) ∨
    ∃ d1 d2, ClientProxy.step_async c1 acts = some d1 ∧
      ClientProxy.step_async c2 acts = some d2 ∧
      ((∃ r1 r2, ClientProxy.step_wait d1 = .error r1 ∧
          ClientProxy.step_wait d2 = .error r2) ∨
        ∃ m rs ds infos e1 e2,
          ClientProxy.step_wait d1 = .ok (m, rs, ds, infos, e1) ∧
          ClientProxy.step_wait d2 = .ok (m, rs, ds, infos, e2) ∧
          ShmRel e1 e2) := by
  obtain ⟨hv, hn, ho, ha, h1, h2, hp1, hp2⟩ := h
  have hvalid : (acts.length == c1.num_envs &&
        acts.all fun a => a.length == c1.act_space.sizeFlat.getD 0) =
      (acts.length == c2.num_envs &&
        acts.all fun a => a.length == c2.act_space.sizeFlat.getD 0) := by
    rw [hn, ha]
  cases hval : (acts.length == c2.num_envs &&
      acts.all fun a => a.length == c2.act_space.sizeFlat.getD 0) with
  | false =>
      left
      constructor <;> unfold ClientProxy.step_async
      · rw [hvalid, hval]
        rfl
      · rw [hval]
        rfl
  | true =>
      right
      refine ⟨{ c1 with slot_c2s := acts.flatten
                        pending := some ⟨OP_STEP, []⟩ },
        { c2 with pending := some ⟨OP_STEP, acts.flatten⟩ }, ?_, ?_, ?_⟩
      · unfold ClientProxy.step_async
        rw [hvalid, hval]
        simp only [h1, if_pos, if_true]
      · unfold ClientProxy.step_async
        rw [hval]
        simp only [h2, Bool.false_eq_true, if_neg, not_false_iff, if_true]
      · cases hsw : Vectorize.step_wait
            (Vectorize.step_async c2.venv
              (chunkN c2.num_envs (c2.act_space.sizeFlat.getD 0)
                acts.flatten)) with
        | none =>
            left
            refine ⟨.remoteEnvError, .remoteEnvError, ?_, ?_⟩ <;>
              unfold ClientProxy.step_wait
            · simp only [h1, if_pos, hv, hn, ho, ha, hsw]
            · simp only [h2, Bool.false_eq_true, if_neg, not_false_iff, hsw]
        | some out =>
            obtain ⟨m0, rs, ds, infos, v'⟩ := out
            right
            refine ⟨decMerged c2.obs_space c2.num_envs (encMerged m0),
              rs, ds, infos,
              { c1 with slot_c2s := acts.flatten
                        venv := v'
                        pending := none
                        slot_s2c := encMerged m0 },
              { c2 with venv := v', pending := none }, ?_, ?_,
              rfl, hn, ho, ha, h1, h2, rfl, rfl⟩
            · unfold ClientProxy.step_wait
              simp only [h1, if_pos, hv, hn, ho, ha, hsw]
            · unfold ClientProxy.step_wait
              simp only [h2, Bool.false_eq_true, if_neg, not_false_iff, hsw]

lemma shm_render {c1 c2 : Connection S I} (mode : String)
    (h : ShmRel c1 c2) :
    (ClientProxy.render c1 mode = none ∧
      ClientProxy.render c2 mode = none) ∨
    ∃ fr d1 d2, ClientProxy.render c1 mode = some (fr, d1) ∧
      ClientProxy.render c2 mode = some (fr, d2) ∧ ShmRel d1 d2 := by
  obtain ⟨hv, hn, ho, ha, h1, h2, hp1, hp2⟩ := h
  cases hres : Vectorize.render c2.venv mode with
  | none =>
      left
      constructor <;> unfold ClientProxy.render <;>
        simp only [hv, hres, Option.map_none']
  | some p =>
      obtain ⟨fr0, v'⟩ := p
      right
      refine ⟨decFrames c2.num_envs fr0.flatten,
        { c1 with venv := v', slot_s2c := fr0.flatten },
        { c2 with venv := v' }, ?_, ?_,
        rfl, hn, ho, ha, h1, h2, hp1, hp2⟩
      · unfold ClientProxy.render
        rw [hv, hres]
        simp only [Option.map_some', h1, if_pos, hn]
      · unfold ClientProxy.render
        rw [hres]
        simp only [Option.map_some', h2, Bool.false_eq_true, if_neg,
          not_false_iff]

lemma steps_shm_eq :
    ∀ (script : List (List Arr)) (c1 c2 : Connection S I),
      ShmRel c1 c2 → stepsNet c1 script = stepsNet c2 script := by
  intro script
  induction script with
  | nil => intro c1 c2 _; rfl
  | cons acts rest ih =>
      intro c1 c2 h
      rcases shm_step acts h with ⟨ha1, ha2⟩ |
        ⟨d1, d2, ha1, ha2, ⟨r1, r2, hw1, hw2⟩ |
          ⟨m, rs, ds, infos, e1, e2, hw1, hw2, he⟩⟩
      · simp only [stepsNet, ha1, ha2]
      · simp only [stepsNet, ha1, ha2, hw1, hw2]
      · rcases shm_render "rgb_array" he with ⟨hr1, hr2⟩ |
          ⟨fr, f1, f2, hr1, hr2, hf⟩
        · simp only [stepsNet, ha1, ha2, hw1, hw2, hr1, hr2]
        · simp only [stepsNet, ha1, ha2, hw1, hw2, hr1, hr2]
          rw [ih f1 f2 hf]

/-- Modelled from the spec, proved of the model: the shared-memory and
inline carriers yield identical decoded results over any scenario
script, with no assumption on the collaborator. -/
lemma run_shm_eq (script : List (List Arr)) (c1 c2 : Connection S I)
    (h : ShmRel c1 c2) : runNet c1 script = runNet c2 script := by
  rcases shm_reset h with ⟨hr1, hr2⟩ | ⟨m, d1, d2, hr1, hr2, hd⟩
  · simp only [runNet, hr1, hr2]
  · simp only [runNet, hr1, hr2]
    rw [steps_shm_eq script d1 d2 hd]

lemma shmRel_mkConn (v : Vectorize S Arr I) (sk1 sk2 : SocketKind) :
    ShmRel (mkConn v true sk1) (mkConn v false sk2) :=
  ⟨rfl, rfl, rfl, rfl, rfl, rfl, rfl, rfl⟩

/-!
Heap facts for the aliasing behaviour of `_SimpleEnv` -/

lemma Heap.get_set_self {h : Heap} {r : Nat} {x : Arr}
    (hr : r < h.cells.length) : (h.set r x).get r = x := by
  unfold Heap.get Heap.set
  rw [List.getD_eq_getElem?_getD, List.getElem?_set_self hr,
    Option.getD_some]

lemma Heap.get_set_ne {h : Heap} {r r' : Nat} {x : Arr} (hne : r ≠ r') :
    (h.set r x).get r' = h.get r' := by
  unfold Heap.get Heap.set
  rw [List.getD_eq_getElem?_getD, List.getElem?_set_ne hne,
    ← List.getD_eq_getElem?_getD]

lemma Heap.length_set {h : Heap} {r : Nat} {x : Arr} :
    (h.set r x).cells.length = h.cells.length :=
  List.length_set h.cells r x

/-- The in-place `+=` fold of `stepH`: every referenced cell receives the
action added in; every other cell is untouched. -/
lemma stepH_fold (a : Arr) :
    ∀ (refs : List Nat) (h : Heap), refs.Nodup →
      (∀ r ∈ refs, r < h.cells.length) →
      (∀ r ∈ refs,
        (refs.foldl (fun acc r => acc.set r (addArr (acc.get r) a)) h).get
          r = addArr (h.get r) a) ∧
      (∀ r, r ∉ refs →
        (refs.foldl (fun acc r => acc.set r (addArr (acc.get r) a)) h).get
          r = h.get r) ∧
      (refs.foldl (fun acc r => acc.set r (addArr (acc.get r) a))
        h).cells.length = h.cells.length := by
  intro refs
  induction refs with
  | nil => exact fun h _ _ => ⟨by simp, fun r _ => rfl, rfl⟩
  | cons r0 rest ih =>
      intro h hnd hbd
      have hnd' := (List.nodup_cons.mp hnd).2
      have hr0 := (List.nodup_cons.mp hnd).1
      have hbd' : ∀ r ∈ rest,
          r < (h.set r0 (addArr (h.get r0) a)).cells.length := by
        intro r hr
        rw [Heap.length_set]
        exact hbd r (by simp [hr])
      obtain ⟨hin, hout, hlen⟩ :=
        ih (h.set r0 (addArr (h.get r0) a)) hnd' hbd'
      refine ⟨?_, ?_, ?_⟩
      · intro r hr
        rcases List.mem_cons.mp hr with rfl | hr'
        · rw [List.foldl_cons, hout r hr0,
            Heap.get_set_self (hbd r (by simp))]
        · rw [List.foldl_cons, hin r hr',
            Heap.get_set_ne (fun hEq => hr0 (by rw [hEq]; exact hr'))]
      · intro r hr
        have hr1 : r ≠ r0 := fun hEq => hr (by rw [hEq]; exact List.mem_cons_self r0 rest)
        have hr2 : r ∉ rest := fun hIn => hr (List.mem_cons_of_mem r0 hIn)
        rw [List.foldl_cons, hout r hr2,
          Heap.get_set_ne (fun hEq => hr1 hEq.symm)]
      · rw [List.foldl_cons, hlen, Heap.length_set]

lemma mapOpt_length {f : α → Option β} :
    ∀ {xs : List α} {ys : List β}, mapOpt f xs = some ys →
      ys.length = xs.length := by
  intro xs
  induction xs with
  | nil =>
      intro ys h
      cases h
      rfl
  | cons x xs ih =>
      intro ys h
      unfold mapOpt at h
      cases hf : f x with
      | none => rw [hf] at h; cases h
      | some y =>
          rw [hf] at h
          cases hm : mapOpt f xs with
          | none => rw [hm] at h; cases h
          | some ys' =>
              rw [hm] at h
              cases h
              simp [ih hm]

lemma mapOpt_get {f : α → Option β} :
    ∀ {xs : List α} {ys : List β}, mapOpt f xs = some ys →
      ∀ i (h1 : i < xs.length) (h2 : i < ys.length),
        f (xs.get ⟨i, h1⟩) = some (ys.get ⟨i, h2⟩) := by
  intro xs
  induction xs with
  | nil =>
      intro ys h i h1 h2
      simp at h1
  | cons x xs ih =>
      intro ys h i h1 h2
      unfold mapOpt at h
      cases hf : f x with
      | none => rw [hf] at h; cases h
      | some y =>
          rw [hf] at h
          cases hm : mapOpt f xs with
          | none => rw [hm] at h; cases h
          | some ys' =>
              rw [hm] at h
              cases h
              cases i with
              | zero => exact hf
              | succ j =>
                  exact ih hm j (Nat.lt_of_succ_lt_succ h1)
                    (Nat.lt_of_succ_lt_succ h2)

/-!
The claims -/

/-- Claim C4: calling `step_async` twice without an intervening
`step_wait` is defined so that the second call supersedes the first: in
`Vectorize` the second call's actions overwrite the stored `self._act`
(the two-call composite state is the one-call state), and the following
`step_wait` uses only the most recently submitted actions. -/
theorem c4_step_async_supersedes {S A I : Type} (v : Vectorize S A I)
    (a1 a2 : List A) :
    Vectorize.step_async (Vectorize.step_async v a1) a2 =
      Vectorize.step_async v a2 ∧
    (Vectorize.step_async (Vectorize.step_async v a1) a2).act = some a2 ∧
    Vectorize.step_wait
        (Vectorize.step_async (Vectorize.step_async v a1) a2) =
      Vectorize.step_wait (Vectorize.step_async v a2) :=
  ⟨rfl, rfl, rfl⟩

/-- Claim C7: after `step_async acts`, a `step_wait` whose per-instance
steps succeed returns the 4-tuple whose reward, done and info batches are
exactly the per-instance step results in instance order (index `i` stepped
with `acts[i]`), as length-`N` lists, with the raw observations batched
per instance in index order by `_merge_obs`. -/
theorem c7_step_wait_batches {S A I : Type} (v : Vectorize S A I)
    (acts : List A) (outs : List (ObsV × Rat × Bool × I × S))
    (m : MergedObs)
    (hact : v.act = some acts) (hlen : v.envs.length = acts.length)
    (houts : mapOpt (fun p => v.dyn.step p.1 p.2) (v.envs.zip acts) =
      some outs)
    (hm : mergeObs v.observation_space (outs.map fun o => o.1) = some m) :
    Vectorize.step_wait v =
      some (m, outs.map fun o => o.2.1, outs.map fun o => o.2.2.1,
        outs.map fun o => o.2.2.2.1,
        { v with envs := outs.map fun o => o.2.2.2.2 }) ∧
    (outs.map fun o => o.2.1).length = v.envs.length ∧
    (outs.map fun o => o.2.2.1).length = v.envs.length ∧
    ∀ i (hi : i < v.envs.length) (ha : i < acts.length)
      (ho : i < outs.length),
      v.dyn.step (v.envs.get ⟨i, hi⟩) (acts.get ⟨i, ha⟩) =
        some (outs.get ⟨i, ho⟩) := by
  have hzlen : (v.envs.zip acts).length = v.envs.length := by
    rw [List.length_zip, hlen, min_self]
  have holen : outs.length = v.envs.length :=
    (mapOpt_length houts).trans hzlen
  refine ⟨step_wait_some v acts outs m hact (le_of_eq hlen) houts hm,
    by simp [holen], by simp [holen], ?_⟩
  intro i hi ha ho
  have hz : i < (v.envs.zip acts).length := by rw [hzlen]; exact hi
  have := mapOpt_get houts i hz ho
  rw [List.get_eq_getElem, List.getElem_zip] at this
  simpa using this

/-- Claim C7, witnessed on a concrete one-instance batch. -/
theorem c7_step_wait_batches_witness :
    Vectorize.step_wait wVecR =
      some (MergedObs.arr [[2, 3]], [wStepOut].map fun o => o.2.1,
        [wStepOut].map fun o => o.2.2.1,
        [wStepOut].map fun o => o.2.2.2.1,
        { wVecR with envs := [wStepOut].map fun o => o.2.2.2.2 }) ∧
    ([wStepOut].map fun o => o.2.1).length = wVecR.envs.length ∧
    ([wStepOut].map fun o => o.2.2.1).length = wVecR.envs.length ∧
    ∀ i (hi : i < wVecR.envs.length) (ha : i < [[1, 1]].length)
      (ho : i < [wStepOut].length),
      wVecR.dyn.step (wVecR.envs.get ⟨i, hi⟩) ([[1, 1]].get ⟨i, ha⟩) =
        some ([wStepOut].get ⟨i, ho⟩) :=
  c7_step_wait_batches wVecR [[1, 1]] [wStepOut] (MergedObs.arr [[2, 3]])
    rfl rfl rfl rfl

/-- Claim C8: constructing a `Vectorize` from a nonempty batch of
environments whose action space is a dict space (has a `spaces`
attribute) fails the constructor's assertion; every successfully
constructed `Vectorize` has a non-dict action space. -/
theorem c8_no_dict_action_space {S A I : Type} (dyn : EnvDyn S A I)
    (envs : List S) :
    (envs ≠ [] → dyn.action_space.hasSpaces = true →
      Vectorize.init dyn envs = .error .assertionError) ∧
    ∀ v, Vectorize.init dyn envs = .ok v →
      v.action_space.hasSpaces = false := by
  constructor
  · intro hne hd
    cases envs with
    | nil => exact absurd rfl hne
    | cons e rest =>
        unfold Vectorize.init
        rw [hd]
        rfl
  · intro v hv
    cases envs with
    | nil => exact absurd hv (by unfold Vectorize.init; simp)
    | cons e rest =>
        unfold Vectorize.init at hv
        cases hd : dyn.action_space.hasSpaces with
        | true =>
            rw [hd] at hv
            simp at hv
        | false =>
            rw [hd] at hv
            simp only [Bool.false_eq_true, if_neg, not_false_iff,
              Except.ok.injEq] at hv
            rw [← hv]
            exact hd

/-- Claim C8, witnessed on a concrete dict action space and on a
successful construction. -/
theorem c8_no_dict_action_space_witness :
    Vectorize.init wDictDyn [wEnv] = .error .assertionError ∧
    ∀ v, Vectorize.init (simpleDyn false [2]) [wEnv] = .ok v →
      v.action_space.hasSpaces = false :=
  ⟨(c8_no_dict_action_space wDictDyn [wEnv]).1 (by simp) rfl,
    (c8_no_dict_action_space (simpleDyn false [2]) [wEnv]).2⟩

/-- Claim C10: `Vectorize.render` accepts only `"rgb_array"`: any other
mode, including the Python default `"human"`, fails the assertion; in
`"rgb_array"` mode it returns the per-instance frames stacked in instance
order (each instance consuming its next RNG draw). -/
theorem c10_render_only_rgb (dm : Bool) (shape : List Nat)
    (v : Vectorize SimpleEnv Arr Unit)
    (hdyn : v.dyn = simpleDyn dm shape) :
    (∀ mode, mode ≠ "rgb_array" → Vectorize.render v mode = none) ∧
    Vectorize.render_default v = none ∧
    Vectorize.render v "rgb_array" =
      some (v.envs.map fun e => e.frames e.frame_idx,
        { v with envs := v.envs.map fun e =>
            { e with frame_idx := e.frame_idx + 1 } }) := by
  refine ⟨?_, ?_, ?_⟩
  · intro mode hm
    unfold Vectorize.render
    rw [if_neg hm]
  · show Vectorize.render v "human" = none
    unfold Vectorize.render
    rw [if_neg (by decide)]
  · unfold Vectorize.render
    rw [if_pos rfl]
    have hmr : mapOpt v.dyn.render_rgb v.envs =
        some (v.envs.map SimpleEnv.render) := by
      have : v.dyn.render_rgb = fun e => some (SimpleEnv.render e) := by
        rw [hdyn]; rfl
      rw [this]
      exact mapOpt_of_some SimpleEnv.render v.envs
    rw [hmr]
    simp only [Option.map_some', List.map_map]
    rfl

/-- Claim C10, witnessed on a concrete batch: the default mode and a
`"human"` render fail, the `"rgb_array"` render returns the stacked
frames. -/
theorem c10_render_only_rgb_witness :
    Vectorize.render wVec "human" = none ∧
    Vectorize.render_default wVec = none ∧
    Vectorize.render wVec "rgb_array" =
      some (wVec.envs.map fun e => e.frames e.frame_idx,
        { wVec with envs := wVec.envs.map fun e =>
            { e with frame_idx := e.frame_idx + 1 } }) :=
  ⟨(c10_render_only_rgb false [2] wVec rfl).1 "human" (by decide),
    (c10_render_only_rgb false [2] wVec rfl).2.1,
    (c10_render_only_rgb false [2] wVec rfl).2.2⟩

/-- Claim C1: for any fixed environment states (seeds) and action
sequence, running the batched collaborator directly and running it
through the `ClientProxy`/`ServerSession` transport, both with and
without the shared-memory path, produces equal observations, rewards and
done flags at every step (exact equality, hence within any floating-point
tolerance) and equal render frames. -/
theorem c1_direct_vs_transport (dm : Bool) (shape : List Nat) (F n : Nat)
    (v : Vectorize SimpleEnv Arr Unit) (script : List (List Arr))
    (shm : Bool) (sk : SocketKind) (hv : VecOk dm shape F n v)
    (hacts : ∀ acts ∈ script, WSArrs n shape.prod acts) :
    runNet (mkConn v shm sk) script = runDirect v script :=
  run_net_eq script (corr_mkConn hv shm sk) hv hacts

/-- Claim C1, witnessed on a concrete one-instance scenario over the
shared-memory path. -/
theorem c1_direct_vs_transport_witness :
    runNet (mkConn wVec true SocketKind.unix) [[[5, 6]]] =
      runDirect wVec [[[5, 6]]] :=
  c1_direct_vs_transport false [2] 2 1 wVec [[[5, 6]]] true
    SocketKind.unix
    (by refine ⟨rfl, rfl, rfl, rfl, ?_⟩
        intro e he
        have hee : e = wEnv := by simpa [wVec] using he
        subst hee
        exact ⟨rfl, rfl, by decide, fun k => rfl⟩)
    (by intro acts ha
        have hee : acts = [[5, 6]] := by simpa using ha
        subst hee
        exact ⟨rfl, by decide⟩)

/-- Claim C2: for identical inputs, the inline-payload (socket-only) path
and the shared-memory path of the transport produce identical decoded
results for every reset, step and render call of any scenario script,
over any collaborator. -/
theorem c2_inline_vs_shared_memory {S I : Type} (v : Vectorize S Arr I)
    (sk : SocketKind) (script : List (List Arr)) :
    runNet (mkConn v true sk) script = runNet (mkConn v false sk) script :=
  run_shm_eq script (mkConn v true sk) (mkConn v false sk)
    (shmRel_mkConn v sk sk)

/-- Claim C3: `step_wait` called with no preceding unconsumed
`step_async` fails with `ProtocolError`; in particular it does so on a
freshly handshaken connection. -/
theorem c3_step_wait_requires_pending {S I : Type} (c : Connection S I)
    (hp : c.pending = none) :
    ClientProxy.step_wait c = .error .protocolError ∧
    ∀ (v : Vectorize S Arr I) (shm : Bool) (sk : SocketKind),
      ClientProxy.step_wait (mkConn v shm sk) =
        .error .protocolError := by
  constructor
  · unfold ClientProxy.step_wait
    rw [hp]
  · intro v shm sk
    rfl

/-- Claim C3, witnessed on a concrete fresh connection. -/
theorem c3_step_wait_requires_pending_witness :
    ClientProxy.step_wait (mkConn wVec false SocketKind.tcp) =
      .error .protocolError ∧
    ∀ (v : Vectorize SimpleEnv Arr Unit) (shm : Bool) (sk : SocketKind),
      ClientProxy.step_wait (mkConn v shm sk) = .error .protocolError :=
  c3_step_wait_requires_pending (mkConn wVec false SocketKind.tcp) rfl

/-- Claim C5: `close` is idempotent on either side and never corrupts
state held for a still-open peer: the in-process adapter's close over the
test environments is the identity (`gym.Env.close` is a no-op), closing
it twice equals closing it once, the client proxy's close and the server
session's close are idempotent, and the server's close leaves the
client-side fields untouched.  All the close operations are total
functions, so no call raises. -/
theorem c5_close_idempotent (dm : Bool) (shape : List Nat)
    (v : Vectorize SimpleEnv Arr Unit) (hdyn : v.dyn = simpleDyn dm shape)
    {S I : Type} (c : Connection S I) :
    Vectorize.close v = v ∧
    Vectorize.close (Vectorize.close v) = Vectorize.close v ∧
    ClientProxy.close (ClientProxy.close c) = ClientProxy.close c ∧
    ServerSession.close (ServerSession.close c) = ServerSession.close c ∧
    (ServerSession.close c).pending = c.pending ∧
    (ServerSession.close c).client_closed = c.client_closed := by
  have hcl : Vectorize.close v = v := by
    unfold Vectorize.close
    have hid : v.dyn.close = fun e => e := by rw [hdyn]; rfl
    rw [hid, List.map_id']
  refine ⟨hcl, by simp only [hcl], ?_, ?_, ?_, ?_⟩
  · unfold ClientProxy.close
    cases hcc : c.client_closed with
    | true => simp [hcc]
    | false => simp [hcc]
  · unfold ServerSession.close
    cases hsc : c.server_closed with
    | true => simp [hsc]
    | false => simp [hsc]
  · unfold ServerSession.close
    cases hsc : c.server_closed with
    | true => simp [hsc]
    | false => simp [hsc]
  · unfold ServerSession.close
    cases hsc : c.server_closed with
    | true => simp [hsc]
    | false => simp [hsc]

/-- Claim C5, witnessed on concrete adapter and connection states. -/
theorem c5_close_idempotent_witness :
    Vectorize.close wVec = wVec ∧
    Vectorize.close (Vectorize.close wVec) = Vectorize.close wVec ∧
    ClientProxy.close (ClientProxy.close (mkConn wVec false
        SocketKind.tcp)) =
      ClientProxy.close (mkConn wVec false SocketKind.tcp) ∧
    ServerSession.close (ServerSession.close (mkConn wVec false
        SocketKind.tcp)) =
      ServerSession.close (mkConn wVec false SocketKind.tcp) ∧
    (ServerSession.close (mkConn wVec false SocketKind.tcp)).pending =
      (mkConn wVec false SocketKind.tcp).pending ∧
    (ServerSession.close (mkConn wVec false
        SocketKind.tcp)).client_closed =
      (mkConn wVec false SocketKind.tcp).client_closed :=
  c5_close_idempotent false [2] wVec rfl (mkConn wVec false SocketKind.tcp)

/-- Claim C6: the `test_simple_env` scenario — 32 parallel instances,
a 1000-step script of `uint8` actions of shape `(3, 8)` (24 entries, all
below 256), dict observation space with two named members — produces
exactly matching direct and networked results at every step, for both
socket kinds and with shared memory enabled or disabled. -/
theorem c6_scenario_32x1000 (v : Vectorize SimpleEnv Arr Unit) (F : Nat)
    (script : List (List Arr)) (hv : VecOk true [3, 8] F 32 v)
    (hsteps : script.length = 1000)
    (hacts : ∀ acts ∈ script, acts.length = 32 ∧
      ∀ a ∈ acts, a.length = 24 ∧ ∀ x ∈ a, x < 256) :
    ∀ (shm : Bool) (sk : SocketKind),
      runNet (mkConn v shm sk) script = runDirect v script := by
  intro shm sk
  apply run_net_eq script (corr_mkConn hv shm sk) hv
  intro acts ha
  obtain ⟨h1, h2⟩ := hacts acts ha
  refine ⟨h1, ?_⟩
  intro a hA
  rw [(h2 a hA).1]
  rfl

set_option maxRecDepth 4000 in
/-- Claim C6, witnessed on the concrete 32-instance, 1000-step script. -/
theorem c6_scenario_32x1000_witness :
    runNet (mkConn wVec32 true SocketKind.unix) wScript1000 =
      runDirect wVec32 wScript1000 :=
  c6_scenario_32x1000 wVec32 512 wScript1000
    (by refine ⟨rfl, rfl, rfl, rfl, ?_⟩
        intro e he
        have he2 : e ∈ List.replicate 32 wEnvD := he
        have hee : e = wEnvD := List.eq_of_mem_replicate he2
        subst hee
        exact ⟨rfl, rfl, by decide, fun k => rfl⟩)
    rfl
    (by intro acts h
        have h2 : acts ∈ List.replicate 1000
            (List.replicate 32 (List.replicate 24 0)) := h
        have hA : acts = List.replicate 32 (List.replicate 24 0) :=
          List.eq_of_mem_replicate h2
        subst hA
        refine ⟨List.length_replicate 32 (List.replicate 24 0), ?_⟩
        intro a ha
        have haa : a = List.replicate 24 0 := List.eq_of_mem_replicate ha
        subst haa
        refine ⟨List.length_replicate 24 0, ?_⟩
        intro x hx
        rw [List.eq_of_mem_replicate hx]
        decide)
    true SocketKind.unix

/-- Claim C9: `_SimpleEnv.reset` returns a reference alias of the stored
start observation, and `step` adds the action into the referenced buffers
in place; consequently after a step, a second `reset` returns references
whose values are the mutated buffers — different from the first reset's
values whenever the in-place addition changed them. -/
theorem c9_reset_aliasing (e : SimpleEnvH) (h : Heap) (a : Arr)
    (hnd : e.start_refs.Nodup)
    (hbd : ∀ r ∈ e.start_refs, r < h.cells.length) :
    (SimpleEnvH.resetH e).1 = e.start_refs ∧
    ∃ rew dn e2 h2,
      SimpleEnvH.stepH (SimpleEnvH.resetH e).2 h a =
        some (e.start_refs, rew, dn, e2, h2) ∧
      (SimpleEnvH.resetH e2).1 = e.start_refs ∧
      (∀ r ∈ e.start_refs, h2.get r = addArr (h.get r) a) ∧
      ∀ r ∈ e.start_refs, addArr (h.get r) a ≠ h.get r →
        h2.get r ≠ h.get r := by
  obtain ⟨hin, hout, hlenp⟩ := stepH_fold a e.start_refs h hnd hbd
  refine ⟨rfl, ((0 + 1 : Nat) : Rat) / ((e.max_steps : Nat) : Rat),
    decide (e.max_steps ≤ 0 + 1),
    { e with cur_refs := some e.start_refs, cur_step := 0 + 1 },
    e.start_refs.foldl (fun acc r => acc.set r (addArr (acc.get r) a)) h,
    rfl, rfl, hin, ?_⟩
  intro r hr hne
  rw [hin r hr]
  exact hne

/-- Claim C9, witnessed on a concrete environment and heap where the
mutation visibly changes the start observation. -/
theorem c9_reset_aliasing_witness :
    (SimpleEnvH.resetH wEnvH).1 = wEnvH.start_refs ∧
    ∃ rew dn e2 h2,
      SimpleEnvH.stepH (SimpleEnvH.resetH wEnvH).2 wHeap [1, 1] =
        some (wEnvH.start_refs, rew, dn, e2, h2) ∧
      (SimpleEnvH.resetH e2).1 = wEnvH.start_refs ∧
      (∀ r ∈ wEnvH.start_refs,
        h2.get r = addArr (wHeap.get r) [1, 1]) ∧
      ∀ r ∈ wEnvH.start_refs,
        addArr (wHeap.get r) [1, 1] ≠ wHeap.get r →
          h2.get r ≠ wHeap.get r :=
  c9_reset_aliasing wEnvH wHeap [1, 1] (by decide) (by decide)

end Netenv
